import Mathlib

/-!
Verification of the httpcloak repository's cookie jar, TLS session cache,
warmup planner and fast C binding against their natural-language
specification.  The Go source is shallowly embedded: Go strings become Lean
`String`s, `time.Time` becomes `Int` (nanoseconds), Go maps become
association lists whose update removes the previous binding, and external
library calls (base64, TLS serialization, the HTML tokenizer, URL
resolution) become explicit function parameters.
-/

namespace Httpcloak

/-! ### String helpers mirroring Go's strings package -/

/-- Index of the last occurrence of a character, as in Go's
`strings.LastIndex` restricted to a one-character needle. -/
def lastIndexOfChar (l : List Char) (c : Char) : Option Nat :=
  match l.reverse.findIdx? (· = c) with
  | none => none
  | some i => some (l.length - 1 - i)

/-- Go's `strings.ToLower` (ASCII range, which is all that matters for the
hosts and domains the jar handles). -/
def goToLower (s : String) : String :=
  String.mk (s.toList.map Char.toLower)

/-- Go's `strings.HasPrefix`, computed on character lists. -/
def goStartsWith (s p : String) : Bool :=
  p.toList.isPrefixOf s.toList

/-- Go's `strings.HasSuffix`, computed on character lists. -/
def goEndsWith (s p : String) : Bool :=
  p.toList.isSuffixOf s.toList

/-- Drop the first `n` characters of a string. -/
def goDrop (s : String) (n : Nat) : String :=
  String.mk (s.toList.drop n)

/-- Go's `strings.TrimPrefix(s, ".")`: removes one leading dot if present. -/
def trimLeadingDot (s : String) : String :=
  if goStartsWith s "." then goDrop s 1 else s

/-! ### Cookie data model (`CookieData`, `resp_request_host_issue.md`) -/

/-- `CookieData` from the session package: a stored cookie.  Times are
absolute instants in nanoseconds. -/
structure CookieData where
  name : String
  value : String
  domain : String
  hostOnly : Bool
  path : String
  expires : Option Int
  maxAge : Int
  secure : Bool
  httpOnly : Bool
  sameSite : String
  createdAt : Int
  deriving DecidableEq, Repr

/-- `CookieState` from the session package: the serialized form of a
cookie used by `Export`/`Import`. -/
structure CookieState where
  name : String
  value : String
  domain : String
  path : String
  expires : Option Int
  maxAge : Int
  secure : Bool
  httpOnly : Bool
  sameSite : String
  createdAt : Option Int
  deriving DecidableEq, Repr

/-- The jar's two-level Go map `domain -> (path+NUL+name) -> cookie`,
flattened to an association list on the pair of keys. -/
abbrev Jar := List (String × String × CookieData)

/-- `cookieKey` from the source: `path + "\x00" + name`. -/
def cookieKey (path name : String) : String :=
  path ++ "\x00" ++ name

/-- Host normalization done at the top of `Set` and `Get`: lowercase, then
strip a trailing `:port` unless the colon belongs to an IPv6 literal. -/
def normalizeHost (host : String) : String :=
  let h := goToLower host
  let l := h.toList
  match lastIndexOfChar l ':' with
  | none => h
  | some idx =>
    match l.findIdx? (· = ']') with
    | none => String.mk (l.take idx)
    | some b => if b < idx then String.mk (l.take idx) else h

/-- `isDomainMatch` from the source: host equal to the domain or a
subdomain of it. -/
def isDomainMatch (host domain : String) : Bool :=
  if host = domain then true
  else if goEndsWith host ("." ++ domain) then true
  else false

/-- `domainMatchesHost` from the source: cookie-domain versus request
host, where the empty domain matches everything and a leading dot marks a
domain cookie that also covers subdomains. -/
def domainMatchesHost (cookieDomain requestHost : String) : Bool :=
  if cookieDomain = "" then true
  else if cookieDomain = requestHost then true
  else if goStartsWith cookieDomain "." then
    if requestHost = goDrop cookieDomain 1 then true
    else if goEndsWith requestHost cookieDomain then true
    else false
  else false

/-- `isPathMatch` from the source. -/
def isPathMatch (requestPath cookiePath : String) : Bool :=
  if requestPath = cookiePath then true
  else if goStartsWith requestPath cookiePath then
    if goEndsWith cookiePath "/" then true
    else if cookiePath.toList.length < requestPath.toList.length ∧
        requestPath.toList.get? cookiePath.toList.length = some '/' then true
    else false
  else false

/-- The expiration test `cookie.Expires != nil && cookie.Expires.Before(now)`. -/
def cookieExpired (c : CookieData) (now : Int) : Bool :=
  match c.expires with
  | some e => decide (e < now)
  | none => false

/-! ### Jar map primitives -/

/-- Remove the binding for a (domain, key) pair, as Go's map assignment
implicitly does before writing. -/
def jarErase (dkey ckey : String) (j : Jar) : Jar :=
  j.filter (fun e => ¬(e.1 = dkey ∧ e.2.1 = ckey))

/-- Go's `j.cookies[domain][key] = stored`. -/
def jarInsert (dkey ckey : String) (c : CookieData) (j : Jar) : Jar :=
  (dkey, ckey, c) :: jarErase dkey ckey j

/-- Map lookup on the flattened jar. -/
def jarLookup (dkey ckey : String) (j : Jar) : Option CookieData :=
  (j.find? (fun e => e.1 = dkey ∧ e.2.1 = ckey)).map (fun e => e.2.2)

/-! ### `CookieJar.Set` -/

/-- `CookieJar.Set` from the source: validates the Domain attribute and
the Secure flag, normalizes the path, and stores the cookie under the
effective domain. -/
def jarSet (j : Jar) (requestHost : String) (cookie : CookieData)
    (requestSecure : Bool) (now : Int) : Jar :=
  let rh := normalizeHost requestHost
  let dres : Option (String × Bool) :=
    if cookie.domain = "" then some (rh, true)
    else
      let d := goToLower cookie.domain
      let dwd := trimLeadingDot d
      if isDomainMatch rh dwd then some ("." ++ dwd, false) else none
  match dres with
  | none => j
  | some (domain, hOnly) =>
    if cookie.secure ∧ ¬requestSecure then j
    else
      let path := if goStartsWith cookie.path "/" then cookie.path else "/"
      let stored : CookieData :=
        { name := cookie.name, value := cookie.value, domain := domain,
          hostOnly := hOnly, path := path, expires := cookie.expires,
          maxAge := cookie.maxAge, secure := cookie.secure,
          httpOnly := cookie.httpOnly, sameSite := cookie.sameSite,
          createdAt := now }
      jarInsert domain (cookieKey path cookie.name) stored j

/-! ### `CookieJar.Get` -/

/-- The per-cookie filter inside `Get`'s loop: domain match, host-only
check, path match, secure check, expiration check. -/
def getFilter (rh rp : String) (secure : Bool) (now : Int)
    (e : String × String × CookieData) : Bool :=
  domainMatchesHost e.1 rh ∧
  ¬(e.2.2.hostOnly ∧ e.1 ≠ rh) ∧
  isPathMatch rp e.2.2.path ∧
  ¬(e.2.2.secure ∧ ¬secure) ∧
  ¬cookieExpired e.2.2 now

/-- The unsorted match list collected by `Get`. -/
def getMatches (j : Jar) (host path : String) (secure : Bool) (now : Int) :
    List CookieData :=
  let rh := normalizeHost host
  let rp := if path = "" then "/" else path
  (j.filter (getFilter rh rp secure now)).map (fun e => e.2.2)

/-- The comparator of `Get`'s final sort, as a non-strict order: the
sorted output of Go's `sort.Slice` with less = (longer path first, then
earlier creation first) satisfies exactly this relation pairwise. -/
def cookieLE (a b : CookieData) : Prop :=
  b.path.length < a.path.length ∨
    (a.path.length = b.path.length ∧ a.createdAt ≤ b.createdAt)

instance : DecidableRel cookieLE := fun a b => by
  unfold cookieLE; infer_instance

instance : IsTotal CookieData cookieLE where
  total a b := by
    unfold cookieLE
    rcases Nat.lt_trichotomy a.path.length b.path.length with h | h | h
    · exact Or.inr (Or.inl h)
    · rcases Int.le_total a.createdAt b.createdAt with h2 | h2
      · exact Or.inl (Or.inr ⟨h, h2⟩)
      · exact Or.inr (Or.inr ⟨h.symm, h2⟩)
    · exact Or.inl (Or.inl h)

instance : IsTrans CookieData cookieLE where
  trans a b c hab hbc := by
    unfold cookieLE at *
    rcases hab with h1 | ⟨h1, h1c⟩
    · rcases hbc with h2 | ⟨h2, _⟩
      · exact Or.inl (h2.trans h1)
      · exact Or.inl (h2 ▸ h1)
    · rcases hbc with h2 | ⟨h2, h2c⟩
      · exact Or.inl (h1 ▸ h2)
      · exact Or.inr ⟨h1.trans h2, h1c.trans h2c⟩

/-- `CookieJar.Get` from the source: filter, then sort by path length
descending and creation time ascending. -/
def jarGet (j : Jar) (host path : String) (secure : Bool) (now : Int) :
    List CookieData :=
  List.insertionSort cookieLE (getMatches j host path secure now)

/-- `CookieJar.SetSimple` from the source: a global cookie under the
empty-string domain key with path `/` and no expiry. -/
def jarSetSimple (j : Jar) (name value : String) (now : Int) : Jar :=
  jarInsert "" (cookieKey "/" name)
    { name := name, value := value, domain := "", hostOnly := false,
      path := "/", expires := none, maxAge := 0, secure := false,
      httpOnly := false, sameSite := "", createdAt := now } j

/-- `BuildCookieHeader` from the source. -/
def buildCookieHeader (j : Jar) (host path : String) (secure : Bool)
    (now : Int) : String :=
  let cookies := jarGet j host path secure now
  if cookies.length = 0 then ""
  else String.intercalate "; " (cookies.map (fun c => c.name ++ "=" ++ c.value))

/-! ### Lemmas about the Get filter -/

theorem isPathMatch_iff (rp cp : String) :
    isPathMatch rp cp = true ↔
      (rp = cp ∨ (goStartsWith rp cp ∧
        (rp.toList.get? cp.toList.length = some '/' ∨ goEndsWith cp "/"))) := by
  unfold isPathMatch
  split
  next h1 => simp [h1]
  next h1 =>
    split
    next h2 =>
      split
      next h3 => simp [h1, h2, h3]
      next h3 =>
        split
        next h4 => exact iff_of_true rfl (Or.inr ⟨h2, Or.inl h4.2⟩)
        next h4 =>
          simp only [Bool.false_eq_true, false_iff]
          rintro (heq | ⟨_, hget | hend⟩)
          · exact h1 heq
          · refine h4 ⟨?_, hget⟩
            by_contra hge
            rw [List.get?_eq_none.mpr (Nat.le_of_not_lt hge)] at hget
            exact Option.noConfusion hget
          · exact h3 hend
    next h2 => simp [h1, h2]

theorem mem_jarGet_iff (j : Jar) (c : CookieData) (host path : String)
    (secure : Bool) (now : Int) :
    c ∈ jarGet j host path secure now ↔
      ∃ e ∈ j, e.2.2 = c ∧ getFilter (normalizeHost host)
        (if path = "" then "/" else path) secure now e = true := by
  unfold jarGet getMatches
  rw [List.mem_insertionSort]
  simp only [List.mem_map, List.mem_filter]
  constructor
  · rintro ⟨e, ⟨he, hf⟩, hc⟩
    exact ⟨e, he, hc, hf⟩
  · rintro ⟨e, he, hc, hf⟩
    exact ⟨e, ⟨he, hf⟩, hc⟩

/-- C1: a cookie is returned by `CookieJar.Get` iff its domain matches the
request host (host-only cookies only on exact host), its path matches the
request path per RFC 6265 default-path rules, it is not a Secure cookie on
a non-HTTPS request, and it is not expired at the time of the call. -/
theorem cookiejar_get_iff_match (j : Jar) (c : CookieData) (host path : String)
    (secure : Bool) (now : Int) :
    c ∈ jarGet j host path secure now ↔
      ∃ e ∈ j, e.2.2 = c ∧
        (domainMatchesHost e.1 (normalizeHost host) ∧
         (c.hostOnly → e.1 = normalizeHost host) ∧
         ((if path = "" then "/" else path) = c.path ∨
           (goStartsWith (if path = "" then "/" else path) c.path ∧
             ((if path = "" then "/" else path).toList.get? c.path.toList.length
                 = some '/' ∨
              goEndsWith c.path "/"))) ∧
         (c.secure → secure) ∧
         cookieExpired c now = false) := by
  rw [mem_jarGet_iff]
  constructor
  · rintro ⟨e, he, rfl, hf⟩
    unfold getFilter at hf
    rw [decide_eq_true_eq] at hf
    obtain ⟨hd, hho, hpm, hsec, hexp⟩ := hf
    refine ⟨e, he, rfl, hd, ?_, ?_, ?_, ?_⟩
    · intro hh
      by_contra hne
      exact hho ⟨hh, hne⟩
    · exact (isPathMatch_iff _ _).mp hpm
    · intro hs
      by_contra hns
      exact hsec ⟨hs, fun h => hns h⟩
    · exact Bool.not_eq_true _ ▸ Bool.of_not_eq_true hexp
  · rintro ⟨e, he, rfl, hd, hho, hpm, hsec, hexp⟩
    refine ⟨e, he, rfl, ?_⟩
    unfold getFilter
    rw [decide_eq_true_eq]
    refine ⟨hd, ?_, (isPathMatch_iff _ _).mpr hpm, ?_, ?_⟩
    · rintro ⟨hh, hne⟩
      exact hne (hho hh)
    · rintro ⟨hs, hns⟩
      exact hns (hsec hs)
    · rw [hexp]
      simp

/-- C2: `CookieJar.Set` leaves the jar unchanged when the cookie is
Secure on a non-HTTPS request or its Domain attribute does not cover the
request host; otherwise it inserts or overwrites exactly the one binding
for the effective domain and (path, name) key, host-only with the request
host as domain when the Domain attribute is empty, and non-host-only with
a leading-dot domain otherwise. -/
theorem cookiejar_set_spec (j : Jar) (host : String) (c : CookieData)
    (sec : Bool) (now : Int) :
    jarSet j host c sec now =
      if (c.domain ≠ "" ∧
            isDomainMatch (normalizeHost host)
              (trimLeadingDot (goToLower c.domain)) = false) ∨
          (c.secure ∧ sec = false) then j
      else
        let dom := if c.domain = "" then normalizeHost host
          else "." ++ trimLeadingDot (goToLower c.domain)
        let path := if goStartsWith c.path "/" then c.path else "/"
        jarInsert dom (cookieKey path c.name)
          { name := c.name, value := c.value, domain := dom,
            hostOnly := decide (c.domain = ""), path := path,
            expires := c.expires, maxAge := c.maxAge, secure := c.secure,
            httpOnly := c.httpOnly, sameSite := c.sameSite,
            createdAt := now } j := by
  unfold jarSet
  by_cases hd : c.domain = ""
  · cases hcs : c.secure <;> cases hsec : sec <;> simp [hd, hcs, hsec]
  · by_cases hm : isDomainMatch (normalizeHost host)
        (trimLeadingDot (goToLower c.domain)) = true
    · cases hcs : c.secure <;> cases hsec : sec <;> simp [hd, hm, hcs, hsec]
    · have hm' : isDomainMatch (normalizeHost host)
          (trimLeadingDot (goToLower c.domain)) = false :=
        Bool.not_eq_true _ ▸ Bool.of_not_eq_true hm
      simp [hd, hm']

/-- C8: the list returned by `Get` is sorted by path length descending and,
among equal path lengths, by creation time ascending; it is a permutation
of the matched cookies; and `BuildCookieHeader` joins exactly these
cookies as `name=value` pairs with `"; "` in that order. -/
theorem cookiejar_get_sorted_header (j : Jar) (host path : String)
    (secure : Bool) (now : Int) :
    List.Pairwise
      (fun a b : CookieData => b.path.length < a.path.length ∨
        (a.path.length = b.path.length ∧ a.createdAt ≤ b.createdAt))
      (jarGet j host path secure now) ∧
    (jarGet j host path secure now).Perm (getMatches j host path secure now) ∧
    buildCookieHeader j host path secure now =
      String.intercalate "; "
        ((jarGet j host path secure now).map
          (fun c => c.name ++ "=" ++ c.value)) := by
  refine ⟨?_, ?_, ?_⟩
  · have h := List.sorted_insertionSort cookieLE
      (getMatches j host path secure now)
    simpa [jarGet, List.Sorted, cookieLE] using h
  · exact List.perm_insertionSort cookieLE _
  · unfold buildCookieHeader
    by_cases h : (jarGet j host path secure now).length = 0
    · have hnil : jarGet j host path secure now = [] :=
        List.length_eq_zero.mp h
      rw [hnil]
      simp [String.intercalate]
    · simp [h]

/-- C9 counterexample: a cookie stored via `SetSimple` is present in the
jar (under the empty domain key) but is not returned by `Get` for the
request path `"x"`, refuting inclusion for every request path. -/
theorem cookiejar_setSimple_counterexample :
    jarLookup "" (cookieKey "/" "n") (jarSetSimple [] "n" "v" 0) ≠ none ∧
    jarGet (jarSetSimple [] "n" "v" 0) "example.com" "x" false 0 = [] := by
  decide

theorem isPathMatch_root (p : String) (hp : goStartsWith p "/" = true) :
    isPathMatch p "/" = true := by
  unfold isPathMatch
  by_cases he : p = "/"
  · simp [he]
  · have hends : goEndsWith "/" "/" = true := by decide
    simp [he, hp, hends]

/-- C9 (amended): a cookie set via `SetSimple(name, value)` is stored
under the empty-string domain key and is returned by `Get` for every
request host, both secure flags, and every request path that is empty or
begins with a slash, at any time. -/
theorem cookiejar_setSimple_global (j : Jar) (name value : String)
    (now : Int) (host path : String) (secure : Bool) (now2 : Int)
    (hp : path = "" ∨ goStartsWith path "/" = true) :
    jarLookup "" (cookieKey "/" name) (jarSetSimple j name value now) =
      some { name := name, value := value, domain := "", hostOnly := false,
             path := "/", expires := none, maxAge := 0, secure := false,
             httpOnly := false, sameSite := "", createdAt := now } ∧
    { name := name, value := value, domain := "", hostOnly := false,
      path := "/", expires := none, maxAge := 0, secure := false,
      httpOnly := false, sameSite := "", createdAt := now } ∈
        jarGet (jarSetSimple j name value now) host path secure now2 := by
  constructor
  · simp [jarLookup, jarSetSimple, jarInsert, List.find?]
  · rw [mem_jarGet_iff]
    refine ⟨("", cookieKey "/" name,
      { name := name, value := value, domain := "", hostOnly := false,
        path := "/", expires := none, maxAge := 0, secure := false,
        httpOnly := false, sameSite := "", createdAt := now }),
      by simp [jarSetSimple, jarInsert], rfl, ?_⟩
    unfold getFilter
    rw [decide_eq_true_eq]
    have hpm : isPathMatch (if path = "" then "/" else path) "/" = true := by
      rcases hp with hp | hp
      · simp [hp, isPathMatch]
      · have hne : ¬(path = "") := by
          intro hc
          rw [hc] at hp
          exact Bool.noConfusion hp
        rw [if_neg hne]
        exact isPathMatch_root path hp
    refine ⟨?_, ?_, hpm, ?_, ?_⟩
    · simp [domainMatchesHost]
    · rintro ⟨hc, _⟩
      exact Bool.noConfusion hc
    · rintro ⟨hc, _⟩
      exact Bool.noConfusion hc
    · simp [cookieExpired]

/-- Witness for the amended C9 at a concrete input. -/
theorem cookiejar_setSimple_global_witness :
    ("/a" = "" ∨ goStartsWith "/a" "/" = true) ∧
    (jarLookup "" (cookieKey "/" "n") (jarSetSimple [] "n" "v" 0) =
      some { name := "n", value := "v", domain := "", hostOnly := false,
             path := "/", expires := none, maxAge := 0, secure := false,
             httpOnly := false, sameSite := "", createdAt := 0 } ∧
    { name := "n", value := "v", domain := "", hostOnly := false,
      path := "/", expires := none, maxAge := 0, secure := false,
      httpOnly := false, sameSite := "", createdAt := 0 } ∈
        jarGet (jarSetSimple [] "n" "v" 0) "h" "/a" false 0) :=
  ⟨by decide,
   cookiejar_setSimple_global [] "n" "v" 0 "h" "/a" false 0 (by decide)⟩

/-! ### TLS session cache (`transport/tls_cache.go`)

The `tls.ClientSessionState` payload is opaque to the repository; it is
modelled by a type parameter `α`.  The external serialization pipeline
(`ResumptionState`/`Bytes`/base64 on export; base64/`ParseSessionState`/
`NewResumptionState` on import) is modelled by explicit function
parameters `exportFn : α → Option (String × String)` and
`dec : TLSSessionState → Option α`, each returning `none` exactly when
any stage of the corresponding Go chain fails. -/

/-- `TLSSessionMaxAge = 24 * time.Hour`, in nanoseconds. -/
def tlsSessionMaxAge : Int := 24 * 3600 * 1000000000

/-- `TLSSessionCacheMaxSize = 32`. -/
def tlsSessionCacheMaxSize : Nat := 32

/-- `TLSSessionState`: the serialized form of a cached session. -/
structure TLSSessionState where
  ticket : String
  state : String
  createdAt : Int
  deriving DecidableEq, Repr

/-- `cachedSession`: a live cache entry. -/
structure CachedSession (α : Type) where
  state : α
  createdAt : Int
  deriving DecidableEq, Repr

/-- `PersistableSessionCache`: the sessions map plus the LRU access order
(oldest at the front). -/
structure SessionCache (α : Type) where
  sessions : List (String × CachedSession α)
  accessOrder : List String
  deriving DecidableEq, Repr

variable {α : Type}

/-- `NewPersistableSessionCache` / the state after `Clear`. -/
def emptyCache : SessionCache α := ⟨[], []⟩

/-- Lookup in the sessions map. -/
def sessLookup (k : String) (l : List (String × CachedSession α)) :
    Option (CachedSession α) :=
  (l.find? (fun e => e.1 = k)).map (fun e => e.2)

/-- Go's `delete(c.sessions, k)`. -/
def sessErase (k : String) (l : List (String × CachedSession α)) :
    List (String × CachedSession α) :=
  l.filter (fun e => ¬(e.1 = k))

/-- Go's `c.sessions[k] = v`. -/
def sessInsert (k : String) (v : CachedSession α)
    (l : List (String × CachedSession α)) : List (String × CachedSession α) :=
  (k, v) :: sessErase k l

/-- `moveToEnd`: move the first occurrence of `k` (if any) to the back. -/
def moveToEnd (l : List String) (k : String) : List String :=
  if k ∈ l then l.erase k ++ [k] else l

/-- `Get`: returns the cached state and refreshes the LRU position. -/
def cacheGet (c : SessionCache α) (k : String) : Option α × SessionCache α :=
  match sessLookup k c.sessions with
  | some v => (some v.state, ⟨c.sessions, moveToEnd c.accessOrder k⟩)
  | none => (none, c)

/-- `Put`: update-in-place on an existing key; otherwise evict the front
of `accessOrder` when at capacity, then append the new entry. -/
def cachePut (c : SessionCache α) (k : String) (st : α) (now : Int) :
    SessionCache α :=
  if (sessLookup k c.sessions).isSome then
    ⟨sessInsert k ⟨st, now⟩ c.sessions, moveToEnd c.accessOrder k⟩
  else
    match c.accessOrder with
    | [] => ⟨sessInsert k ⟨st, now⟩ c.sessions, [k]⟩
    | o :: rest =>
      if tlsSessionCacheMaxSize ≤ c.sessions.length then
        ⟨sessInsert k ⟨st, now⟩ (sessErase o c.sessions), rest ++ [k]⟩
      else
        ⟨sessInsert k ⟨st, now⟩ c.sessions, (o :: rest) ++ [k]⟩

/-- One iteration of `Import`'s loop: skip entries older than
`TLSSessionMaxAge` or whose decode chain fails; otherwise store the entry
with its original `CreatedAt` and append its key to the access order. -/
def importStep (dec : TLSSessionState → Option α) (now : Int)
    (c : SessionCache α) (kv : String × TLSSessionState) : SessionCache α :=
  if tlsSessionMaxAge < now - kv.2.createdAt then c
  else
    match dec kv.2 with
    | none => c
    | some st =>
      ⟨sessInsert kv.1 ⟨st, kv.2.createdAt⟩ c.sessions,
       c.accessOrder ++ [kv.1]⟩

/-- `Import`'s main loop over the (map-iteration ordered) input. -/
def importAll (dec : TLSSessionState → Option α) (now : Int) :
    SessionCache α → List (String × TLSSessionState) → SessionCache α
  | c, [] => c
  | c, kv :: rest => importAll dec now (importStep dec now c kv) rest

/-- `Import`'s trailing eviction loop: while over capacity and the access
order is non-empty, drop the front key. -/
def evictLoop : List String → List (String × CachedSession α) →
    List String × List (String × CachedSession α)
  | [], s => ([], s)
  | o :: rest, s =>
    if tlsSessionCacheMaxSize < s.length then evictLoop rest (sessErase o s)
    else (o :: rest, s)

/-- `PersistableSessionCache.Import`. -/
def cacheImport (dec : TLSSessionState → Option α) (now : Int)
    (input : List (String × TLSSessionState)) (c : SessionCache α) :
    SessionCache α :=
  let c1 := importAll dec now c input
  let p := evictLoop c1.accessOrder c1.sessions
  ⟨p.2, p.1⟩

/-- `PersistableSessionCache.Export`: serialize every session whose
external serialization chain succeeds, keeping its `CreatedAt`. -/
def cacheExport (exportFn : α → Option (String × String))
    (c : SessionCache α) : List (String × TLSSessionState) :=
  c.sessions.filterMap (fun e =>
    (exportFn e.2.state).map (fun ts => (e.1, ⟨ts.1, ts.2, e.2.createdAt⟩)))

/-- `Count`. -/
def cacheCount (c : SessionCache α) : Nat := c.sessions.length

/-! ### Operation sequences on the cache (for the size invariant) -/

/-- One public operation on a `PersistableSessionCache`. -/
inductive CacheOp (α : Type) where
  | put (k : String) (st : α) (now : Int)
  | getOp (k : String)
  | imp (dec : TLSSessionState → Option α) (now : Int)
      (input : List (String × TLSSessionState))
  | clear

/-- Apply one operation. -/
def applyOp (c : SessionCache α) : CacheOp α → SessionCache α
  | .put k st now => cachePut c k st now
  | .getOp k => (cacheGet c k).2
  | .imp dec now input => cacheImport dec now input c
  | .clear => emptyCache

/-- Run a sequence of operations from the empty cache. -/
def runOps (ops : List (CacheOp α)) : SessionCache α :=
  ops.foldl applyOp emptyCache

/-! ### Lookup lemmas for the sessions map -/

theorem sessLookup_cons (k : String) (e : String × CachedSession α)
    (l : List (String × CachedSession α)) :
    sessLookup k (e :: l) = if e.1 = k then some e.2 else sessLookup k l := by
  unfold sessLookup
  rw [List.find?_cons]
  by_cases he : e.1 = k
  · simp [he]
  · simp [he]

theorem sessErase_cons (ek : String) (e : String × CachedSession α)
    (l : List (String × CachedSession α)) :
    sessErase ek (e :: l) =
      if e.1 = ek then sessErase ek l else e :: sessErase ek l := by
  unfold sessErase
  rw [List.filter_cons]
  by_cases he : e.1 = ek
  · simp [he]
  · simp [he]

theorem sessLookup_erase_ne (k ek : String)
    (l : List (String × CachedSession α)) (h : k ≠ ek) :
    sessLookup k (sessErase ek l) = sessLookup k l := by
  induction l with
  | nil => rfl
  | cons e rest ih =>
    rw [sessErase_cons]
    by_cases he : e.1 = ek
    · have hne : ¬(e.1 = k) := by
        intro hh
        rw [he] at hh
        exact h hh.symm
      rw [if_pos he, ih, sessLookup_cons, if_neg hne]
    · rw [if_neg he, sessLookup_cons, sessLookup_cons, ih]

theorem sessLookup_erase_self (k : String)
    (l : List (String × CachedSession α)) :
    sessLookup k (sessErase k l) = none := by
  induction l with
  | nil => rfl
  | cons e rest ih =>
    rw [sessErase_cons]
    by_cases he : e.1 = k
    · rw [if_pos he]
      exact ih
    · rw [if_neg he, sessLookup_cons, if_neg he]
      exact ih

theorem sessLookup_insert (k ik : String) (v : CachedSession α)
    (l : List (String × CachedSession α)) :
    sessLookup k (sessInsert ik v l) =
      if ik = k then some v else sessLookup k l := by
  unfold sessInsert
  rw [sessLookup_cons]
  by_cases h : ik = k
  · rw [if_pos h, if_pos h]
  · rw [if_neg h, if_neg h, sessLookup_erase_ne k ik l (fun hh => h hh.symm)]

theorem sessLookup_evictLoop (ao : List String)
    (s : List (String × CachedSession α)) (k : String) (v : CachedSession α)
    (h : sessLookup k (evictLoop ao s).2 = some v) :
    sessLookup k s = some v := by
  induction ao generalizing s with
  | nil => exact h
  | cons o rest ih =>
    unfold evictLoop at h
    by_cases hl : tlsSessionCacheMaxSize < s.length
    · rw [if_pos hl] at h
      have h2 := ih _ h
      by_cases hk : k = o
      · rw [hk, sessLookup_erase_self] at h2
        exact Option.noConfusion h2
      · rw [sessLookup_erase_ne k o s hk] at h2
        exact h2
    · rw [if_neg hl] at h
      exact h

theorem importAll_lookup_some (dec : TLSSessionState → Option α) (now : Int)
    (input : List (String × TLSSessionState)) (c : SessionCache α)
    (k : String) (v : CachedSession α)
    (h : sessLookup k (importAll dec now c input).sessions = some v) :
    sessLookup k c.sessions = some v ∨
      ∃ s, (k, s) ∈ input ∧ ¬(tlsSessionMaxAge < now - s.createdAt) ∧
        dec s = some v.state ∧ v.createdAt = s.createdAt := by
  induction input generalizing c with
  | nil => exact Or.inl h
  | cons kv rest ih =>
    rcases ih (importStep dec now c kv) h with h1 | ⟨s, hs, h2, h3, h4⟩
    · unfold importStep at h1
      by_cases hage : tlsSessionMaxAge < now - kv.2.createdAt
      · rw [if_pos hage] at h1
        exact Or.inl h1
      · rw [if_neg hage] at h1
        cases hdec : dec kv.2 with
        | none =>
          rw [hdec] at h1
          exact Or.inl h1
        | some st =>
          rw [hdec] at h1
          rw [sessLookup_insert] at h1
          by_cases hk : kv.1 = k
          · rw [if_pos hk] at h1
            injection h1 with h1
            refine Or.inr ⟨kv.2, ?_, hage, ?_, ?_⟩
            · have hm : (kv.1, kv.2) ∈ kv :: rest := List.mem_cons_self _ _
              rw [hk] at hm
              exact hm
            · rw [← h1]
              exact hdec
            · rw [← h1]
          · rw [if_neg hk] at h1
            exact Or.inl h1
    · exact Or.inr ⟨s, List.mem_cons_of_mem _ hs, h2, h3, h4⟩

theorem importAll_lookup_not_mem (dec : TLSSessionState → Option α)
    (now : Int) (input : List (String × TLSSessionState))
    (c : SessionCache α) (k : String)
    (hk : k ∉ input.map Prod.fst) :
    sessLookup k (importAll dec now c input).sessions =
      sessLookup k c.sessions := by
  induction input generalizing c with
  | nil => rfl
  | cons kv rest ih =>
    have hk1 : kv.1 ≠ k := by
      intro hc
      exact hk (by simp [hc])
    have hk2 : k ∉ rest.map Prod.fst := by
      intro hc
      exact hk (by simp [hc])
    have hstep : sessLookup k (importStep dec now c kv).sessions =
        sessLookup k c.sessions := by
      unfold importStep
      by_cases hage : tlsSessionMaxAge < now - kv.2.createdAt
      · rw [if_pos hage]
      · rw [if_neg hage]
        cases hdec : dec kv.2 with
        | none => rfl
        | some st => simp [sessLookup_insert, hk1]
    rw [show importAll dec now c (kv :: rest) =
        importAll dec now (importStep dec now c kv) rest from rfl,
      ih _ hk2, hstep]

theorem importAll_inserts (dec : TLSSessionState → Option α) (now : Int)
    (input : List (String × TLSSessionState)) (c : SessionCache α)
    (k : String) (s : TLSSessionState) (st : α)
    (hnd : (input.map Prod.fst).Nodup) (hmem : (k, s) ∈ input)
    (hage : ¬(tlsSessionMaxAge < now - s.createdAt))
    (hdec : dec s = some st) :
    sessLookup k (importAll dec now c input).sessions =
      some ⟨st, s.createdAt⟩ := by
  induction input generalizing c with
  | nil => exact absurd hmem (List.not_mem_nil _)
  | cons kv rest ih =>
    rcases List.mem_cons.mp hmem with heq | hmem'
    · have hkk : kv.1 = k := by rw [← heq]
      have hks : kv.2 = s := by rw [← heq]
      have hnotin : k ∉ rest.map Prod.fst := by
        rw [List.map_cons] at hnd
        have hn1 := (List.nodup_cons.mp hnd).1
        rw [hkk] at hn1
        exact hn1
      rw [show importAll dec now c (kv :: rest) =
          importAll dec now (importStep dec now c kv) rest from rfl,
        importAll_lookup_not_mem dec now rest _ k hnotin]
      unfold importStep
      rw [hks, if_neg hage, hdec, sessLookup_insert, if_pos hkk]
    · have hnd' : (rest.map Prod.fst).Nodup := by
        rw [List.map_cons] at hnd
        exact (List.nodup_cons.mp hnd).2
      exact ih _ hnd' hmem'

/-- C4: `Import` inserts no entry older than 24 hours (any key present
after `Import` was either already cached or comes from a young input entry
whose decode chain succeeded, with its `CreatedAt` preserved); and every
input entry younger than 24 hours whose decode chain succeeds is inserted
by the import loop with its original `CreatedAt` (the trailing size
enforcement can only remove entries, never add stale ones). -/
theorem tls_import_age_filter (dec : TLSSessionState → Option α) (now : Int)
    (input : List (String × TLSSessionState)) (c : SessionCache α)
    (hnd : (input.map Prod.fst).Nodup) :
    (∀ k v, sessLookup k (cacheImport dec now input c).sessions = some v →
      sessLookup k c.sessions = some v ∨
        ∃ s, (k, s) ∈ input ∧ now - s.createdAt ≤ tlsSessionMaxAge ∧
          dec s = some v.state ∧ v.createdAt = s.createdAt) ∧
    (∀ k s st, (k, s) ∈ input → now - s.createdAt < tlsSessionMaxAge →
      dec s = some st →
      sessLookup k (importAll dec now c input).sessions =
        some ⟨st, s.createdAt⟩) := by
  constructor
  · intro k v h
    have h1 : sessLookup k (importAll dec now c input).sessions = some v := by
      unfold cacheImport at h
      exact sessLookup_evictLoop _ _ _ _ h
    rcases importAll_lookup_some dec now input c k v h1 with h2 | ⟨s, hs, h2, h3, h4⟩
    · exact Or.inl h2
    · exact Or.inr ⟨s, hs, Int.not_lt.mp h2, h3, h4⟩
  · intro k s st hmem hage hdec
    exact importAll_inserts dec now input c k s st hnd hmem
      (Int.not_lt.mpr (Int.le_of_lt hage)) hdec

/-- Witness for C4 at a concrete input. -/
theorem tls_import_age_filter_witness :
    (([("k", (⟨"t", "s", (5 : Int)⟩ : TLSSessionState))].map Prod.fst).Nodup) ∧
    ((∀ k v, sessLookup k (cacheImport (fun _ => some (0 : Nat)) 10
        [("k", ⟨"t", "s", 5⟩)] emptyCache).sessions = some v →
      sessLookup k (emptyCache (α := Nat)).sessions = some v ∨
        ∃ s, (k, s) ∈ [("k", (⟨"t", "s", 5⟩ : TLSSessionState))] ∧
          10 - s.createdAt ≤ tlsSessionMaxAge ∧
          (fun _ => some (0 : Nat)) s = some v.state ∧
          v.createdAt = s.createdAt) ∧
    (∀ k s st, (k, s) ∈ [("k", (⟨"t", "s", 5⟩ : TLSSessionState))] →
      10 - s.createdAt < tlsSessionMaxAge →
      (fun _ => some (0 : Nat)) s = some st →
      sessLookup k (importAll (fun _ => some (0 : Nat)) 10 emptyCache
        [("k", ⟨"t", "s", 5⟩)]).sessions = some ⟨st, s.createdAt⟩)) :=
  ⟨by decide,
   tls_import_age_filter (fun _ => some (0 : Nat)) 10
     [("k", ⟨"t", "s", 5⟩)] emptyCache (by decide)⟩

/-! ### C5: the 32-entry size bound -/

/-- A decode function that always succeeds (valid base64 and parseable
session state). -/
def decAll : TLSSessionState → Option Nat := fun _ => some 0

/-- An operation sequence on which the cache grows past the documented
32-entry bound: importing the same key twice leaves a duplicate in
`accessOrder`, so a later `Put`-eviction removes a stale front entry
instead of a live one. -/
def exploitOps : List (CacheOp Nat) :=
  [CacheOp.imp decAll 0 [("a", ⟨"", "", 0⟩)],
   CacheOp.imp decAll 0 [("a", ⟨"", "", 0⟩)]] ++
  ((List.range 31).map (fun i => CacheOp.put ("b" ++ toString i) 0 0)) ++
  [CacheOp.put "c" 0 0, CacheOp.put "d" 0 0]

set_option maxRecDepth 4000 in
/-- C5: violated by the code.  After the above sequence of public
operations starting from the empty cache, `Count()` is 33, exceeding
`TLSSessionCacheMaxSize = 32`. -/
theorem sessionCache_bound_violated :
    cacheCount (runOps exploitOps) = 33 := by decide

/-! ### Cookie jar Export/Import (`resp_request_host_issue.md`)

Go's snapshot type `map[string][]CookieState` is flattened to a list of
(domain, state) pairs in iteration order, which is exactly what `Import`
traverses. -/

/-- Expiration test on a serialized cookie. -/
def cookieStateExpired (c : CookieState) (now : Int) : Bool :=
  match c.expires with
  | some e => decide (e < now)
  | none => false

/-- The `CookieState` written by `Export` for one stored cookie. -/
def exportState (e : String × String × CookieData) : String × CookieState :=
  (e.1,
   { name := e.2.2.name, value := e.2.2.value, domain := e.2.2.domain,
     path := e.2.2.path, expires := e.2.2.expires, maxAge := e.2.2.maxAge,
     secure := e.2.2.secure, httpOnly := e.2.2.httpOnly,
     sameSite := e.2.2.sameSite, createdAt := some e.2.2.createdAt })

/-- `CookieJar.Export`: every unexpired cookie, under its domain key. -/
def jarExport (j : Jar) (now : Int) : List (String × CookieState) :=
  (j.filter (fun e => ¬cookieExpired e.2.2 now)).map exportState

/-- The (domain, path+NUL+name) key under which `Import` stores one
snapshot element. -/
def targetKey (dc : String × CookieState) : String × String :=
  (dc.1, cookieKey (if dc.2.path = "" then "/" else dc.2.path) dc.2.name)

/-- The `CookieData` record `Import` builds from one snapshot element:
path defaulted to `/`, `host_only` inferred from the leading dot, saved
`CreatedAt` if present. -/
def importedCookie (now : Int) (dc : String × CookieState) : CookieData :=
  { name := dc.2.name, value := dc.2.value, domain := dc.2.domain,
    hostOnly := !goStartsWith dc.2.domain ".",
    path := if dc.2.path = "" then "/" else dc.2.path,
    expires := dc.2.expires, maxAge := dc.2.maxAge, secure := dc.2.secure,
    httpOnly := dc.2.httpOnly, sameSite := dc.2.sameSite,
    createdAt := dc.2.createdAt.getD now }

/-- One iteration of `CookieJar.Import`'s loop: skip expired, otherwise
store. -/
def jarImportStep (now : Int) (j : Jar) (dc : String × CookieState) : Jar :=
  if cookieStateExpired dc.2 now then j
  else jarInsert (targetKey dc).1 (targetKey dc).2 (importedCookie now dc) j

/-- `CookieJar.Import` over the flattened snapshot. -/
def jarImport (j : Jar) (snap : List (String × CookieState)) (now : Int) :
    Jar :=
  match snap with
  | [] => j
  | dc :: rest => jarImport (jarImportStep now j dc) rest now

/-! ### Jar lookup lemmas -/

theorem jarLookup_cons (dk ck : String) (e : String × String × CookieData)
    (l : Jar) :
    jarLookup dk ck (e :: l) =
      if e.1 = dk ∧ e.2.1 = ck then some e.2.2 else jarLookup dk ck l := by
  unfold jarLookup
  rw [List.find?_cons]
  by_cases he : e.1 = dk ∧ e.2.1 = ck
  · simp [he]
  · simp [he]

theorem jarErase_cons (dk ck : String) (e : String × String × CookieData)
    (l : Jar) :
    jarErase dk ck (e :: l) =
      if e.1 = dk ∧ e.2.1 = ck then jarErase dk ck l
      else e :: jarErase dk ck l := by
  unfold jarErase
  rw [List.filter_cons]
  by_cases he : e.1 = dk ∧ e.2.1 = ck
  · simp [he]
  · simp [he]

theorem jarLookup_erase_ne (dk ck ek ec : String) (l : Jar)
    (h : ¬(ek = dk ∧ ec = ck)) :
    jarLookup dk ck (jarErase ek ec l) = jarLookup dk ck l := by
  induction l with
  | nil => rfl
  | cons e rest ih =>
    rw [jarErase_cons]
    by_cases he : e.1 = ek ∧ e.2.1 = ec
    · have hne : ¬(e.1 = dk ∧ e.2.1 = ck) := by
        rintro ⟨h1, h2⟩
        exact h ⟨he.1 ▸ h1, he.2 ▸ h2⟩
      rw [if_pos he, ih, jarLookup_cons, if_neg hne]
    · rw [if_neg he, jarLookup_cons, jarLookup_cons, ih]

theorem jarLookup_erase_self (dk ck : String) (l : Jar) :
    jarLookup dk ck (jarErase dk ck l) = none := by
  induction l with
  | nil => rfl
  | cons e rest ih =>
    rw [jarErase_cons]
    by_cases he : e.1 = dk ∧ e.2.1 = ck
    · rw [if_pos he]
      exact ih
    · rw [if_neg he, jarLookup_cons, if_neg he]
      exact ih

theorem jarLookup_insert (dk ck ik ic : String) (c : CookieData) (l : Jar) :
    jarLookup dk ck (jarInsert ik ic c l) =
      if ik = dk ∧ ic = ck then some c else jarLookup dk ck l := by
  unfold jarInsert
  rw [jarLookup_cons]
  by_cases h : ik = dk ∧ ic = ck
  · rw [if_pos h, if_pos h]
  · rw [if_neg h, if_neg h, jarLookup_erase_ne dk ck ik ic l h]

theorem jarImport_lookup_not_mem (now : Int)
    (snap : List (String × CookieState)) (j : Jar) (dk ck : String)
    (h : (dk, ck) ∉ snap.map targetKey) :
    jarLookup dk ck (jarImport j snap now) = jarLookup dk ck j := by
  induction snap generalizing j with
  | nil => rfl
  | cons dc rest ih =>
    have h1 : targetKey dc ≠ (dk, ck) := by
      intro hc
      exact h (by simp [hc])
    have h2 : (dk, ck) ∉ rest.map targetKey := by
      intro hc
      exact h (by simp [hc])
    have hstep : jarLookup dk ck (jarImportStep now j dc) =
        jarLookup dk ck j := by
      unfold jarImportStep
      by_cases he : cookieStateExpired dc.2 now = true
      · rw [if_pos he]
      · rw [if_neg he, jarLookup_insert, if_neg (fun hc =>
          h1 (Prod.ext_iff.mpr hc))]
    rw [show jarImport j (dc :: rest) now =
        jarImport (jarImportStep now j dc) rest now from rfl, ih _ h2, hstep]

theorem jarImport_inserts (now : Int) (snap : List (String × CookieState))
    (j : Jar) (dc : String × CookieState)
    (hnd : (snap.map targetKey).Nodup) (hmem : dc ∈ snap)
    (hexp : cookieStateExpired dc.2 now = false) :
    jarLookup (targetKey dc).1 (targetKey dc).2 (jarImport j snap now) =
      some (importedCookie now dc) := by
  induction snap generalizing j with
  | nil => exact absurd hmem (List.not_mem_nil _)
  | cons d0 rest ih =>
    rcases List.mem_cons.mp hmem with heq | hmem'
    · subst heq
      have hnotin : targetKey dc ∉ rest.map targetKey := by
        rw [List.map_cons] at hnd
        exact (List.nodup_cons.mp hnd).1
      have hnotin' : ((targetKey dc).1, (targetKey dc).2) ∉
          rest.map targetKey := hnotin
      rw [show jarImport j (dc :: rest) now =
          jarImport (jarImportStep now j dc) rest now from rfl,
        jarImport_lookup_not_mem now rest _ _ _ hnotin']
      unfold jarImportStep
      rw [if_neg (by rw [hexp]; exact Bool.false_ne_true),
        jarLookup_insert, if_pos ⟨rfl, rfl⟩]
    · have hnd' : (rest.map targetKey).Nodup := by
        rw [List.map_cons] at hnd
        exact (List.nodup_cons.mp hnd).2
      exact ih _ hnd' hmem'

/-! ### Well-formedness of a jar state

Every jar reachable through `Set`, `SetSimple`, `Import` and `ImportV4`
satisfies these structural invariants: map keys are unique (a Go map
cannot hold a key twice), the secondary key is `path+NUL+name` (every
writer stores under `cookieKey`), and the stored path is non-empty (every
writer normalizes an empty path to `/`).  Note the `host_only` leading-dot
convention is deliberately NOT part of this predicate: `SetSimple` breaks
it, which is exactly the C3 counterexample. -/
def JarWF (j : Jar) : Prop :=
  (j.map (fun e => (e.1, e.2.1))).Nodup ∧
  (∀ e ∈ j, e.2.1 = cookieKey e.2.2.path e.2.2.name) ∧
  (∀ e ∈ j, e.2.2.path ≠ "")

instance (j : Jar) : Decidable (JarWF j) := by
  unfold JarWF
  infer_instance

theorem exportState_targetKey (e : String × String × CookieData)
    (hpath : e.2.2.path ≠ "") :
    targetKey (exportState e) = (e.1, cookieKey e.2.2.path e.2.2.name) := by
  obtain ⟨d0, k0, c0⟩ := e
  obtain ⟨nm, vl, dm, ho, pa, ex, ma, se, hh, ss, ca⟩ := c0
  simp only at hpath
  simp [targetKey, exportState, hpath]

theorem exportState_importedCookie (now : Int)
    (e : String × String × CookieData) (hpath : e.2.2.path ≠ "")
    (hho : e.2.2.hostOnly = !goStartsWith e.2.2.domain ".") :
    importedCookie now (exportState e) = e.2.2 := by
  obtain ⟨d0, k0, c0⟩ := e
  obtain ⟨nm, vl, dm, ho, pa, ex, ma, se, hh, ss, ca⟩ := c0
  simp only at hpath hho
  simp [importedCookie, exportState, hpath, hho]

theorem exportState_expired (now : Int)
    (e : String × String × CookieData) :
    cookieStateExpired (exportState e).2 now = cookieExpired e.2.2 now :=
  rfl

theorem jarExport_facts (j : Jar) (now : Int) (h : JarWF j) :
    ((jarExport j now).map targetKey).Nodup ∧
    (∀ dc ∈ jarExport j now, cookieStateExpired dc.2 now = false) := by
  obtain ⟨hnd, hck, hpath⟩ := h
  have hmem_sub : ∀ e ∈ j.filter (fun e => ¬cookieExpired e.2.2 now),
      e ∈ j := fun e he => (List.mem_filter.mp he).1
  have hmap : (jarExport j now).map targetKey =
      (j.filter (fun e => ¬cookieExpired e.2.2 now)).map
        (fun e => (e.1, e.2.1)) := by
    unfold jarExport
    rw [List.map_map]
    apply List.map_congr_left
    intro e he
    have h1 := exportState_targetKey e (hpath e (hmem_sub e he))
    have h2 := hck e (hmem_sub e he)
    rw [Function.comp_apply, h1, ← h2]
  constructor
  · rw [hmap]
    exact List.Nodup.sublist
      (List.Sublist.map _ (List.filter_sublist j)) hnd
  · intro dc hdc
    unfold jarExport at hdc
    rcases List.mem_map.mp hdc with ⟨e, he, hdc2⟩
    have h3 := exportState_expired now e
    have h4 : cookieExpired e.2.2 now = false := by
      have := (List.mem_filter.mp he).2
      simpa using this
    rw [← hdc2, h3, h4]

theorem jar_roundtrip_entry (j : Jar) (now : Int)
    (e : String × String × CookieData) (h : JarWF j) (he : e ∈ j)
    (hexp : cookieExpired e.2.2 now = false)
    (hho : e.2.2.hostOnly = !goStartsWith e.2.2.domain ".") :
    jarLookup e.1 e.2.1 (jarImport [] (jarExport j now) now) =
      some e.2.2 := by
  obtain ⟨hndl, _⟩ := jarExport_facts j now h
  obtain ⟨hnd, hck, hpath⟩ := h
  have he_l : e ∈ j.filter (fun e => ¬cookieExpired e.2.2 now) :=
    List.mem_filter.mpr ⟨he, by simp [hexp]⟩
  have hmemsnap : exportState e ∈ jarExport j now := by
    unfold jarExport
    exact List.mem_map_of_mem _ he_l
  have htk := exportState_targetKey e (hpath e he)
  have himp := exportState_importedCookie now e (hpath e he) hho
  have hexps : cookieStateExpired (exportState e).2 now = false := by
    rw [exportState_expired now e, hexp]
  have h4 := jarImport_inserts now (jarExport j now) [] (exportState e)
    hndl hmemsnap hexps
  rw [htk, himp] at h4
  rw [hck e he]
  exact h4

theorem jar_roundtrip_none (j : Jar) (now : Int) (h : JarWF j)
    (dk ck : String)
    (hfind : jarLookup dk ck
      (j.filter (fun e => ¬cookieExpired e.2.2 now)) = none) :
    jarLookup dk ck (jarImport [] (jarExport j now) now) = none := by
  obtain ⟨hnd, hck, hpath⟩ := h
  have hmem_sub : ∀ e ∈ j.filter (fun e => ¬cookieExpired e.2.2 now),
      e ∈ j := fun e he => (List.mem_filter.mp he).1
  have hnm : (dk, ck) ∉ (jarExport j now).map targetKey := by
    intro hc
    rcases List.mem_map.mp hc with ⟨dc, hdc, htk⟩
    rcases List.mem_map.mp (by
      unfold jarExport at hdc
      exact hdc : dc ∈ (j.filter (fun e => ¬cookieExpired e.2.2 now)).map
        exportState) with ⟨e, he, hde⟩
    have h1 := exportState_targetKey e (hpath e (hmem_sub e he))
    rw [← hde, h1] at htk
    have hk1 : e.1 = dk := congrArg Prod.fst htk
    have hk2 : cookieKey e.2.2.path e.2.2.name = ck :=
      congrArg Prod.snd htk
    have hk3 : e.2.1 = ck := by rw [hck e (hmem_sub e he), hk2]
    unfold jarLookup at hfind
    rw [Option.map_eq_none'] at hfind
    have := List.find?_eq_none.mp hfind e he
    simp [hk1, hk3] at this
  rw [jarImport_lookup_not_mem now _ _ _ _ hnm]
  rfl

theorem jar_import_idempotent (j : Jar) (now : Int) (h : JarWF j)
    (dk ck : String) :
    jarLookup dk ck (jarImport (jarImport [] (jarExport j now) now)
        (jarExport j now) now) =
      jarLookup dk ck (jarImport [] (jarExport j now) now) := by
  obtain ⟨hndl, hexpl⟩ := jarExport_facts j now h
  by_cases hmem : (dk, ck) ∈ (jarExport j now).map targetKey
  · rcases List.mem_map.mp hmem with ⟨dc, hdc, htk⟩
    have h1 := jarImport_inserts now (jarExport j now)
      (jarImport [] (jarExport j now) now) dc hndl hdc (hexpl _ hdc)
    have h2 := jarImport_inserts now (jarExport j now) [] dc hndl hdc
      (hexpl _ hdc)
    rw [htk] at h1 h2
    exact h1.trans h2.symm
  · rw [jarImport_lookup_not_mem now _ _ _ _ hmem]

/-! ### TLS cache Export/Import round-trip lemmas -/

theorem sessLookup_of_mem_nodup (l : List (String × CachedSession α))
    (e : String × CachedSession α)
    (hnd : (l.map Prod.fst).Nodup) (he : e ∈ l) :
    sessLookup e.1 l = some e.2 := by
  induction l with
  | nil => exact absurd he (List.not_mem_nil _)
  | cons e0 rest ih =>
    rw [List.map_cons] at hnd
    rcases List.mem_cons.mp he with heq | hmem
    · rw [heq, sessLookup_cons, if_pos rfl]
    · have hne : e0.1 ≠ e.1 := by
        intro hc
        exact (List.nodup_cons.mp hnd).1 (hc ▸ List.mem_map_of_mem Prod.fst hmem)
      rw [sessLookup_cons, if_neg hne]
      exact ih (List.nodup_cons.mp hnd).2 hmem

theorem importAll_lookup_skip (dec : TLSSessionState → Option α) (now : Int)
    (input : List (String × TLSSessionState)) (c : SessionCache α)
    (k : String)
    (h : ∀ s, (k, s) ∈ input →
      tlsSessionMaxAge < now - s.createdAt ∨ dec s = none) :
    sessLookup k (importAll dec now c input).sessions =
      sessLookup k c.sessions := by
  induction input generalizing c with
  | nil => rfl
  | cons kv rest ih =>
    have hstep : sessLookup k (importStep dec now c kv).sessions =
        sessLookup k c.sessions := by
      unfold importStep
      by_cases hage : tlsSessionMaxAge < now - kv.2.createdAt
      · rw [if_pos hage]
      · rw [if_neg hage]
        by_cases hk : kv.1 = k
        · have hm : (k, kv.2) ∈ kv :: rest := by
            rw [← hk]
            exact List.mem_cons_self _ _
          rcases h kv.2 hm with ha | hd
          · exact absurd ha hage
          · rw [hd]
        · cases hdec : dec kv.2 with
          | none => rfl
          | some st => simp [sessLookup_insert, hk]
    rw [show importAll dec now c (kv :: rest) =
        importAll dec now (importStep dec now c kv) rest from rfl,
      ih _ (fun s hs => h s (List.mem_cons_of_mem _ hs)), hstep]

theorem sessInsert_length_le (k : String) (v : CachedSession α)
    (l : List (String × CachedSession α)) :
    (sessInsert k v l).length ≤ l.length + 1 := by
  unfold sessInsert sessErase
  have := List.length_filter_le (fun e => !decide (e.1 = k)) l
  simpa using Nat.succ_le_succ (by simpa using this)

theorem sessInsert_length_of_mem (k : String) (v : CachedSession α)
    (l : List (String × CachedSession α))
    (h : (sessLookup k l).isSome) :
    (sessInsert k v l).length ≤ l.length := by
  unfold sessInsert
  have hlt : (sessErase k l).length < l.length := by
    unfold sessErase
    rcases Option.isSome_iff_exists.mp h with ⟨v0, hv0⟩
    unfold sessLookup at hv0
    rcases Option.map_eq_some'.mp hv0 with ⟨e, hfe, _⟩
    have he : e ∈ l := List.mem_of_find?_eq_some hfe
    have hpe : e.1 = k := by
      have := List.find?_some hfe
      simpa using this
    apply List.length_filter_lt_length_iff_exists.mpr
    exact ⟨e, he, by simp [hpe]⟩
  simpa using Nat.succ_le_of_lt hlt

theorem importStep_sessions_length (dec : TLSSessionState → Option α)
    (now : Int) (c : SessionCache α) (kv : String × TLSSessionState) :
    (importStep dec now c kv).sessions.length ≤ c.sessions.length + 1 := by
  unfold importStep
  by_cases hage : tlsSessionMaxAge < now - kv.2.createdAt
  · rw [if_pos hage]
    exact Nat.le_succ _
  · rw [if_neg hage]
    cases hdec : dec kv.2 with
    | none => exact Nat.le_succ _
    | some st => exact sessInsert_length_le _ _ _

theorem importAll_length_le (dec : TLSSessionState → Option α) (now : Int)
    (input : List (String × TLSSessionState)) (c : SessionCache α) :
    (importAll dec now c input).sessions.length ≤
      c.sessions.length + input.length := by
  induction input generalizing c with
  | nil => exact Nat.le_refl _
  | cons kv rest ih =>
    calc (importAll dec now (importStep dec now c kv) rest).sessions.length
        ≤ (importStep dec now c kv).sessions.length + rest.length := ih _
      _ ≤ (c.sessions.length + 1) + rest.length :=
          Nat.add_le_add_right (importStep_sessions_length dec now c kv) _
      _ = c.sessions.length + (kv :: rest).length := by
          rw [List.length_cons]
          omega

theorem evictLoop_eq_self (ao : List String)
    (s : List (String × CachedSession α))
    (h : s.length ≤ tlsSessionCacheMaxSize) :
    evictLoop ao s = (ao, s) := by
  cases ao with
  | nil => rfl
  | cons o rest =>
    unfold evictLoop
    rw [if_neg (Nat.not_lt.mpr h)]

theorem cacheImport_of_small (dec : TLSSessionState → Option α) (now : Int)
    (input : List (String × TLSSessionState)) (c : SessionCache α)
    (h : (importAll dec now c input).sessions.length ≤
      tlsSessionCacheMaxSize) :
    cacheImport dec now input c = importAll dec now c input := by
  unfold cacheImport
  simp only [evictLoop_eq_self _ _ h]

theorem importStep_lookup_isSome (dec : TLSSessionState → Option α)
    (now : Int) (c : SessionCache α) (kv : String × TLSSessionState)
    (k : String) (h : (sessLookup k c.sessions).isSome) :
    (sessLookup k (importStep dec now c kv).sessions).isSome := by
  unfold importStep
  by_cases hage : tlsSessionMaxAge < now - kv.2.createdAt
  · rw [if_pos hage]
    exact h
  · rw [if_neg hage]
    cases hdec : dec kv.2 with
    | none => exact h
    | some st =>
      rw [show (⟨sessInsert kv.1 ⟨st, kv.2.createdAt⟩ c.sessions,
          c.accessOrder ++ [kv.1]⟩ : SessionCache α).sessions =
          sessInsert kv.1 ⟨st, kv.2.createdAt⟩ c.sessions from rfl,
        sessLookup_insert]
      by_cases hk : kv.1 = k
      · rw [if_pos hk]
        rfl
      · rw [if_neg hk]
        exact h

theorem importAll_length_of_present (dec : TLSSessionState → Option α)
    (now : Int) (input : List (String × TLSSessionState))
    (c : SessionCache α)
    (h : ∀ kv ∈ input, ¬(tlsSessionMaxAge < now - kv.2.createdAt) →
      (dec kv.2).isSome → (sessLookup kv.1 c.sessions).isSome) :
    (importAll dec now c input).sessions.length ≤ c.sessions.length := by
  induction input generalizing c with
  | nil => exact Nat.le_refl _
  | cons kv rest ih =>
    have hstep_len : (importStep dec now c kv).sessions.length ≤
        c.sessions.length := by
      unfold importStep
      by_cases hage : tlsSessionMaxAge < now - kv.2.createdAt
      · rw [if_pos hage]
      · rw [if_neg hage]
        cases hdec : dec kv.2 with
        | none => exact Nat.le_refl _
        | some st =>
          exact sessInsert_length_of_mem _ _ _
            (h kv (List.mem_cons_self _ _) hage (by rw [hdec]; rfl))
    have hrest : ∀ kv' ∈ rest, ¬(tlsSessionMaxAge < now - kv'.2.createdAt) →
        (dec kv'.2).isSome →
        (sessLookup kv'.1 (importStep dec now c kv).sessions).isSome :=
      fun kv' h' hage st =>
        importStep_lookup_isSome dec now c kv kv'.1
          (h kv' (List.mem_cons_of_mem _ h') hage st)
    exact (ih _ hrest).trans hstep_len

theorem cacheExport_keys_sublist (f : α → Option (String × String))
    (l : List (String × CachedSession α)) :
    ((l.filterMap (fun e => (f e.2.state).map
        (fun ts => (e.1, TLSSessionState.mk ts.1 ts.2 e.2.createdAt)))).map
      Prod.fst).Sublist (l.map Prod.fst) := by
  induction l with
  | nil => simp
  | cons e rest ih =>
    rw [List.filterMap_cons]
    cases hex : f e.2.state with
    | none =>
      simp only [Option.map_none']
      exact ih.cons e.1
    | some ts =>
      simp only [Option.map_some', List.map_cons]
      exact ih.cons₂ e.1

/-- The logical content of the TLS round-trip: keep a looked-up session
iff it is within `TLSSessionMaxAge`. -/
def ageFilter (now : Int) (o : Option (CachedSession α)) :
    Option (CachedSession α) :=
  match o with
  | some v => if tlsSessionMaxAge < now - v.createdAt then none else some v
  | none => none

theorem tls_export_import_roundtrip (c : SessionCache α)
    (exportFn : α → Option (String × String))
    (importFn : String → String → Option α) (now : Int)
    (hkeys : (c.sessions.map Prod.fst).Nodup)
    (hsize : c.sessions.length ≤ tlsSessionCacheMaxSize)
    (hexp : ∀ e ∈ c.sessions, (exportFn e.2.state).isSome)
    (hinv : ∀ a t s, exportFn a = some (t, s) → importFn t s = some a)
    (k : String) :
    sessLookup k (cacheImport (fun s => importFn s.ticket s.state) now
        (cacheExport exportFn c) emptyCache).sessions =
      ageFilter now (sessLookup k c.sessions) := by
  have hsub := cacheExport_keys_sublist exportFn c.sessions
  have hnds : ((cacheExport exportFn c).map Prod.fst).Nodup :=
    List.Nodup.sublist hsub hkeys
  have hlen : (importAll (fun s => importFn s.ticket s.state) now emptyCache
      (cacheExport exportFn c)).sessions.length ≤ tlsSessionCacheMaxSize := by
    have h1 := importAll_length_le (fun s => importFn s.ticket s.state) now
      (cacheExport exportFn c) emptyCache
    have h2 : (cacheExport exportFn c).length ≤ c.sessions.length :=
      List.length_filterMap_le _ _
    have h0 : (emptyCache (α := α)).sessions.length = 0 := rfl
    rw [h0] at h1
    omega
  have hsmall := cacheImport_of_small (fun s => importFn s.ticket s.state)
    now (cacheExport exportFn c) emptyCache hlen
  cases hk : sessLookup k c.sessions with
  | none =>
    have hknot : k ∉ c.sessions.map Prod.fst := by
      intro hc
      rcases List.mem_map.mp hc with ⟨e, he, hek⟩
      have hl := sessLookup_of_mem_nodup c.sessions e hkeys he
      rw [hek, hk] at hl
      exact Option.noConfusion hl
    have hksnap : k ∉ (cacheExport exportFn c).map Prod.fst :=
      fun hc => hknot (hsub.subset hc)
    rw [hsmall, importAll_lookup_not_mem _ _ _ _ _ hksnap]
    rfl
  | some v =>
    have hk' := hk
    unfold sessLookup at hk'
    rcases Option.map_eq_some'.mp hk' with ⟨e, hfe, hev⟩
    have he : e ∈ c.sessions := List.mem_of_find?_eq_some hfe
    have hek : e.1 = k := by
      have := List.find?_some hfe
      simpa using this
    rcases Option.isSome_iff_exists.mp (hexp e he) with ⟨ts, hts⟩
    have hmemsnap : (k, TLSSessionState.mk ts.1 ts.2 e.2.createdAt) ∈
        cacheExport exportFn c := by
      apply List.mem_filterMap.mpr
      refine ⟨e, he, ?_⟩
      rw [hts, hek]
      rfl
    have hdec : (fun s : TLSSessionState => importFn s.ticket s.state)
        (TLSSessionState.mk ts.1 ts.2 e.2.createdAt) = some e.2.state := by
      show importFn ts.1 ts.2 = some e.2.state
      exact hinv e.2.state ts.1 ts.2 (by rw [hts])
    by_cases hage : tlsSessionMaxAge < now - e.2.createdAt
    · have hskip : ∀ s, (k, s) ∈ cacheExport exportFn c →
          tlsSessionMaxAge < now - s.createdAt ∨
          (fun s : TLSSessionState => importFn s.ticket s.state) s = none := by
        intro s hs
        rcases List.mem_filterMap.mp hs with ⟨e', he', hfe'⟩
        cases hex : exportFn e'.2.state with
        | none =>
          rw [hex] at hfe'
          exact absurd hfe' (by simp)
        | some ts' =>
          rw [hex] at hfe'
          have h1 : (e'.1, TLSSessionState.mk ts'.1 ts'.2 e'.2.createdAt)
              = (k, s) := Option.some.inj hfe'
          have hk1 : e'.1 = k := congrArg Prod.fst h1
          have h2 : TLSSessionState.mk ts'.1 ts'.2 e'.2.createdAt = s :=
            congrArg Prod.snd h1
          have hs1 : s.createdAt = e'.2.createdAt := by rw [← h2]
          have hlook := sessLookup_of_mem_nodup c.sessions e' hkeys he'
          rw [hk1, hk] at hlook
          have hv : v = e'.2 := Option.some.inj hlook
          have hv2 : e.2 = e'.2 := by rw [hev, hv]
          left
          rw [hs1, ← hv2]
          exact hage
      rw [hsmall, importAll_lookup_skip _ _ _ _ _ hskip]
      simp only [ageFilter]
      rw [if_pos (by rw [← hev]; exact hage)]
      rfl
    · have h4 := importAll_inserts
        (fun s : TLSSessionState => importFn s.ticket s.state) now
        (cacheExport exportFn c) emptyCache k
        (TLSSessionState.mk ts.1 ts.2 e.2.createdAt) e.2.state
        hnds hmemsnap hage hdec
      rw [hsmall, h4]
      simp only [ageFilter]
      rw [if_neg (by rw [← hev]; exact hage), ← hev]

theorem tls_import_idempotent (c : SessionCache α)
    (exportFn : α → Option (String × String))
    (importFn : String → String → Option α) (now : Int)
    (hkeys : (c.sessions.map Prod.fst).Nodup)
    (hsize : c.sessions.length ≤ tlsSessionCacheMaxSize)
    (k : String) :
    sessLookup k (cacheImport (fun s => importFn s.ticket s.state) now
        (cacheExport exportFn c)
        (cacheImport (fun s => importFn s.ticket s.state) now
          (cacheExport exportFn c) emptyCache)).sessions =
      sessLookup k (cacheImport (fun s => importFn s.ticket s.state) now
        (cacheExport exportFn c) emptyCache).sessions := by
  have hsub := cacheExport_keys_sublist exportFn c.sessions
  have hnds : ((cacheExport exportFn c).map Prod.fst).Nodup :=
    List.Nodup.sublist hsub hkeys
  have hlen : (importAll (fun s => importFn s.ticket s.state) now emptyCache
      (cacheExport exportFn c)).sessions.length ≤ tlsSessionCacheMaxSize := by
    have h1 := importAll_length_le (fun s => importFn s.ticket s.state) now
      (cacheExport exportFn c) emptyCache
    have h2 : (cacheExport exportFn c).length ≤ c.sessions.length :=
      List.length_filterMap_le _ _
    have h0 : (emptyCache (α := α)).sessions.length = 0 := rfl
    rw [h0] at h1
    omega
  have hsmall := cacheImport_of_small (fun s => importFn s.ticket s.state)
    now (cacheExport exportFn c) emptyCache hlen
  rw [hsmall]
  have hpresent : ∀ kv ∈ cacheExport exportFn c,
      ¬(tlsSessionMaxAge < now - kv.2.createdAt) →
      ((fun s : TLSSessionState => importFn s.ticket s.state) kv.2).isSome →
      (sessLookup kv.1 (importAll
        (fun s : TLSSessionState => importFn s.ticket s.state) now emptyCache
        (cacheExport exportFn c)).sessions).isSome := by
    intro kv hkv hage hd
    rcases Option.isSome_iff_exists.mp hd with ⟨st, hst⟩
    rw [importAll_inserts (fun s : TLSSessionState =>
      importFn s.ticket s.state) now (cacheExport exportFn c) emptyCache
      kv.1 kv.2 st hnds hkv hage hst]
    rfl
  have hlen2 : (importAll (fun s : TLSSessionState =>
      importFn s.ticket s.state) now
      (importAll (fun s : TLSSessionState => importFn s.ticket s.state) now
        emptyCache (cacheExport exportFn c))
      (cacheExport exportFn c)).sessions.length ≤ tlsSessionCacheMaxSize :=
    (importAll_length_of_present _ _ _ _ hpresent).trans hlen
  rw [cacheImport_of_small _ _ _ _ hlen2]
  by_cases hex2 : ∃ s, (k, s) ∈ cacheExport exportFn c ∧
      ¬(tlsSessionMaxAge < now - s.createdAt) ∧
      ((fun s : TLSSessionState => importFn s.ticket s.state) s).isSome
  · obtain ⟨s, hs, hage, hd⟩ := hex2
    obtain ⟨st, hst⟩ := Option.isSome_iff_exists.mp hd
    rw [importAll_inserts _ _ _ _ k s st hnds hs hage hst,
      importAll_inserts _ _ _ _ k s st hnds hs hage hst]
  · have hskip : ∀ s, (k, s) ∈ cacheExport exportFn c →
        tlsSessionMaxAge < now - s.createdAt ∨
        (fun s : TLSSessionState => importFn s.ticket s.state) s = none := by
      intro s hs
      by_contra hc
      push_neg at hc
      exact hex2 ⟨s, hs, Int.not_lt.mpr hc.1, Option.ne_none_iff_isSome.mp hc.2⟩
    rw [importAll_lookup_skip _ _ _ _ _ hskip]

set_option maxRecDepth 8000 in
/-- C3 counterexample, two independent failures of the original claim.
Cookie side: a `SetSimple`-style cookie (empty domain, not host-only) does
not round-trip intact — after export and import into an empty jar it comes
back with `host_only = true` (inferred from the missing leading dot), and
the logical state differs: `Get` returned the cookie before the
round-trip but not after.  TLS side: the cache reached through the public
operation sequence `exploitOps` holds 33 sessions, all with `CreatedAt`
younger than 24 hours and all serializable, yet after export and import
into an empty cache only 32 remain — `Import`'s trailing size-enforcement
loop evicts one young session, so it does not round-trip. -/
theorem export_import_roundtrip_counterexample :
    ((jarLookup "" (cookieKey "/" "n")
        (jarImport [] (jarExport (jarSetSimple [] "n" "v" 0) 0) 0)).map
      (fun c => c.hostOnly) = some true) ∧
    ((jarLookup "" (cookieKey "/" "n") (jarSetSimple [] "n" "v" 0)).map
      (fun c => c.hostOnly) = some false) ∧
    (jarGet (jarSetSimple [] "n" "v" 0) "h" "/" false 0).length = 1 ∧
    jarGet (jarImport [] (jarExport (jarSetSimple [] "n" "v" 0) 0) 0)
      "h" "/" false 0 = [] ∧
    cacheCount (runOps exploitOps) = 33 ∧
    (runOps exploitOps).sessions.all (fun e => e.2.createdAt = 0) = true ∧
    cacheCount (cacheImport decAll 0
      (cacheExport (fun _ => some ("t", "s")) (runOps exploitOps))
      emptyCache) = 32 := by
  decide

/-- C3 (amended): exporting the session state and importing it into an
empty store preserves, with all fields intact, every unexpired stored
cookie whose `host_only` flag agrees with the absence of a leading dot on
its stored domain (cookies written by `SetSimple` violate this and come
back `host_only = true`), and introduces nothing at keys absent from the
unexpired jar; it preserves every TLS session younger than 24 hours
provided the external serialization chain succeeds and inverts AND the
cache holds at most `TLSSessionCacheMaxSize = 32` sessions — a cache
driven past 32 through the C5 accounting bug loses a young session to the
import-time eviction loop; and importing the same snapshot a second time
into the already-imported store is a no-op on the logical (lookup) state
of both stores.  The `JarWF` hypothesis is the structural invariant of
every reachable jar (unique Go-map keys, `path+NUL+name` secondary keys,
normalized non-empty paths) and excludes no reachable state. -/
theorem session_export_import_roundtrip (j : Jar) (now : Int)
    (c : SessionCache α) (exportFn : α → Option (String × String))
    (importFn : String → String → Option α)
    (hwf : JarWF j)
    (hkeys : (c.sessions.map Prod.fst).Nodup)
    (hsize : c.sessions.length ≤ tlsSessionCacheMaxSize)
    (hexp : ∀ e ∈ c.sessions, (exportFn e.2.state).isSome)
    (hinv : ∀ a t s, exportFn a = some (t, s) → importFn t s = some a) :
    (∀ e ∈ j, cookieExpired e.2.2 now = false →
      e.2.2.hostOnly = !goStartsWith e.2.2.domain "." →
      jarLookup e.1 e.2.1 (jarImport [] (jarExport j now) now) =
        some e.2.2) ∧
    (∀ dk ck, jarLookup dk ck
        (j.filter (fun e => ¬cookieExpired e.2.2 now)) = none →
      jarLookup dk ck (jarImport [] (jarExport j now) now) = none) ∧
    (∀ dk ck, jarLookup dk ck
        (jarImport (jarImport [] (jarExport j now) now)
          (jarExport j now) now) =
      jarLookup dk ck (jarImport [] (jarExport j now) now)) ∧
    (∀ k, sessLookup k (cacheImport (fun s => importFn s.ticket s.state) now
        (cacheExport exportFn c) emptyCache).sessions =
      ageFilter now (sessLookup k c.sessions)) ∧
    (∀ k, sessLookup k (cacheImport (fun s => importFn s.ticket s.state) now
        (cacheExport exportFn c)
        (cacheImport (fun s => importFn s.ticket s.state) now
          (cacheExport exportFn c) emptyCache)).sessions =
      sessLookup k (cacheImport (fun s => importFn s.ticket s.state) now
        (cacheExport exportFn c) emptyCache).sessions) :=
  ⟨fun e he hexpc hho => jar_roundtrip_entry j now e hwf he hexpc hho,
   fun dk ck hf => jar_roundtrip_none j now hwf dk ck hf,
   fun dk ck => jar_import_idempotent j now hwf dk ck,
   fun k => tls_export_import_roundtrip c exportFn importFn now hkeys hsize
     hexp hinv k,
   fun k => tls_import_idempotent c exportFn importFn now hkeys hsize k⟩

/-- Concrete jar for the C3 witness: one well-formed host-only cookie and
one `SetSimple` cookie (the structural `JarWF` invariant holds for the
mixture; only the first cookie satisfies the per-cookie leading-dot
condition). -/
def wJar : Jar :=
  [("example.com", cookieKey "/" "n",
    { name := "n", value := "v", domain := "example.com", hostOnly := true,
      path := "/", expires := none, maxAge := 0, secure := false,
      httpOnly := false, sameSite := "", createdAt := 0 }),
   ("", cookieKey "/" "m",
    { name := "m", value := "w", domain := "", hostOnly := false,
      path := "/", expires := none, maxAge := 0, secure := false,
      httpOnly := false, sameSite := "", createdAt := 0 })]

/-- Concrete TLS cache for the C3 witness. -/
def wCache : SessionCache String := ⟨[("k", ⟨"payload", 5⟩)], ["k"]⟩

/-- Concrete invertible serialization for the C3 witness. -/
def wExportFn : String → Option (String × String) := fun a => some (a, "")

/-- Concrete deserialization for the C3 witness. -/
def wImportFn : String → String → Option String := fun t _ => some t

theorem wInv : ∀ (a t s : String), wExportFn a = some (t, s) →
    wImportFn t s = some a := by
  intro a t s h
  have h1 : (a, "") = (t, s) := Option.some.inj h
  have h2 : a = t := congrArg Prod.fst h1
  rw [← h2]
  rfl

/-- Witness for the amended C3 at a concrete jar, cache, and
serialization. -/
theorem session_export_import_roundtrip_witness :
    (JarWF wJar ∧ (wCache.sessions.map Prod.fst).Nodup ∧
      wCache.sessions.length ≤ tlsSessionCacheMaxSize ∧
      (∀ e ∈ wCache.sessions, (wExportFn e.2.state).isSome) ∧
      (∀ a t s, wExportFn a = some (t, s) → wImportFn t s = some a)) ∧
    ((∀ e ∈ wJar, cookieExpired e.2.2 5 = false →
        e.2.2.hostOnly = !goStartsWith e.2.2.domain "." →
        jarLookup e.1 e.2.1 (jarImport [] (jarExport wJar 5) 5) =
          some e.2.2) ∧
     (∀ dk ck, jarLookup dk ck
         (wJar.filter (fun e => ¬cookieExpired e.2.2 5)) = none →
       jarLookup dk ck (jarImport [] (jarExport wJar 5) 5) = none) ∧
     (∀ dk ck, jarLookup dk ck
         (jarImport (jarImport [] (jarExport wJar 5) 5)
           (jarExport wJar 5) 5) =
       jarLookup dk ck (jarImport [] (jarExport wJar 5) 5)) ∧
     (∀ k, sessLookup k (cacheImport
         (fun s => wImportFn s.ticket s.state) 5
         (cacheExport wExportFn wCache) emptyCache).sessions =
       ageFilter 5 (sessLookup k wCache.sessions)) ∧
     (∀ k, sessLookup k (cacheImport
         (fun s => wImportFn s.ticket s.state) 5
         (cacheExport wExportFn wCache)
         (cacheImport (fun s => wImportFn s.ticket s.state) 5
           (cacheExport wExportFn wCache) emptyCache)).sessions =
       sessLookup k (cacheImport (fun s => wImportFn s.ticket s.state) 5
         (cacheExport wExportFn wCache) emptyCache).sessions)) :=
  by
  refine ⟨⟨by decide, by decide, by decide, by decide, wInv⟩, ?_⟩
  exact session_export_import_roundtrip wJar 5 wCache wExportFn wImportFn
    (by decide) (by decide) (by decide) (by decide) wInv

/-! ### Warmup planner (`session/warmup.go`)

The HTML tokenizer (`golang.org/x/net/html`) is an external library; the
token stream it produces is modelled as a list of `HTMLToken`s.
`resolveURL` is repository code not among the analyzed sources; it is
modelled from the spec ("Resolve relative URLs against the final URL") as
an explicit function parameter `resolve baseURL ref`. -/

/-- `resourceType` from `warmup.go`. -/
inductive ResourceType where
  | css
  | js
  | image
  | font
  deriving DecidableEq, Repr

/-- `subresource` from `warmup.go`. -/
structure Subresource where
  url : String
  typ : ResourceType
  deriving DecidableEq, Repr

/-- One start or self-closing tag as surfaced by the tokenizer. -/
structure HTMLToken where
  isStartOrSelfClosing : Bool
  tagName : String
  attrs : List (String × String)
  deriving DecidableEq, Repr

/-- `parseLinkAttrs`: scans all attributes, last occurrence wins, `rel`
and `as` lowercased. -/
def parseLinkAttrs (attrs : List (String × String)) :
    String × String × String :=
  attrs.foldl (fun acc kv =>
    if kv.1 = "href" then (kv.2, acc.2.1, acc.2.2)
    else if kv.1 = "rel" then (acc.1, goToLower kv.2, acc.2.2)
    else if kv.1 = "as" then (acc.1, acc.2.1, goToLower kv.2)
    else acc) ("", "", "")

/-- `getAttr`: first occurrence wins. -/
def getAttr (attrs : List (String × String)) (name : String) : String :=
  match attrs.find? (fun kv => kv.1 = name) with
  | some kv => kv.2
  | none => ""

/-- The `<link>` classification switch: `stylesheet` and `icon` directly,
`preload` through the `as` attribute. -/
def classifyLink (rel asAttr : String) : Option ResourceType :=
  if rel = "stylesheet" then some .css
  else if rel = "icon" then some .image
  else if rel = "preload" then
    if asAttr = "style" then some .css
    else if asAttr = "script" then some .js
    else if asAttr = "image" then some .image
    else if asAttr = "font" then some .font
    else none
  else none

/-- The subresource (if any) one token contributes before deduplication:
`link` via rel/as, `script src`, `img src`; tokens without attributes
are skipped. -/
def tokenResource (resolve : String → String → String) (baseURL : String)
    (t : HTMLToken) : Option Subresource :=
  if !t.isStartOrSelfClosing then none
  else if t.attrs.isEmpty then none
  else if t.tagName = "link" then
    let a := parseLinkAttrs t.attrs
    if a.1 = "" then none
    else
      match classifyLink a.2.1 a.2.2 with
      | none => none
      | some typ => some ⟨resolve baseURL a.1, typ⟩
  else if t.tagName = "script" then
    let src := getAttr t.attrs "src"
    if src = "" then none else some ⟨resolve baseURL src, .js⟩
  else if t.tagName = "img" then
    let src := getAttr t.attrs "src"
    if src = "" then none else some ⟨resolve baseURL src, .image⟩
  else none

/-- `maxSubresources = 50`. -/
def maxSubresources : Nat := 50

/-- The tokenizer loop of `parseSubresources`: seen-set deduplication on
the resolved URL and the cap check after each token. -/
def parseSubresourcesAux (resolve : String → String → String)
    (baseURL : String) : List HTMLToken → List String → List Subresource →
    List Subresource
  | [], _, acc => acc
  | t :: rest, seen, acc =>
    match tokenResource resolve baseURL t with
    | none =>
      if maxSubresources ≤ acc.length then acc
      else parseSubresourcesAux resolve baseURL rest seen acc
    | some r =>
      if r.url ∈ seen then
        if maxSubresources ≤ acc.length then acc
        else parseSubresourcesAux resolve baseURL rest seen acc
      else
        if maxSubresources ≤ (acc ++ [r]).length then acc ++ [r]
        else parseSubresourcesAux resolve baseURL rest (r.url :: seen)
          (acc ++ [r])

/-- `parseSubresources` over the token stream. -/
def parseSubresources (resolve : String → String → String)
    (tokens : List HTMLToken) (baseURL : String) : List Subresource :=
  parseSubresourcesAux resolve baseURL tokens [] []

/-- `groupByPriority`: one pass splitting into [CSS+fonts], [scripts],
[images]. -/
def groupByPriority (resources : List Subresource) :
    List Subresource × List Subresource × List Subresource :=
  resources.foldl (fun acc r =>
    match r.typ with
    | .css => (acc.1 ++ [r], acc.2.1, acc.2.2)
    | .font => (acc.1 ++ [r], acc.2.1, acc.2.2)
    | .js => (acc.1, acc.2.1 ++ [r], acc.2.2)
    | .image => (acc.1, acc.2.1, acc.2.2 ++ [r])) ([], [], [])

theorem parseSubresourcesAux_inv (resolve : String → String → String)
    (baseURL : String) :
    ∀ (tokens : List HTMLToken) (seen : List String)
      (acc : List Subresource),
      acc.length < maxSubresources →
      (∀ r ∈ acc, r.url ∈ seen) →
      (acc.map (fun r => r.url)).Nodup →
      (parseSubresourcesAux resolve baseURL tokens seen acc).length ≤
          maxSubresources ∧
        ((parseSubresourcesAux resolve baseURL tokens seen acc).map
          (fun r => r.url)).Nodup := by
  intro tokens
  induction tokens with
  | nil =>
    intro seen acc hlen hseen hnd
    exact ⟨Nat.le_of_lt hlen, hnd⟩
  | cons t rest ih =>
    intro seen acc hlen hseen hnd
    cases htr : tokenResource resolve baseURL t with
    | none =>
      simp only [parseSubresourcesAux, htr]
      rw [if_neg (Nat.not_le.mpr hlen)]
      exact ih seen acc hlen hseen hnd
    | some r =>
      simp only [parseSubresourcesAux, htr]
      by_cases hs : r.url ∈ seen
      · rw [if_pos hs, if_neg (Nat.not_le.mpr hlen)]
        exact ih seen acc hlen hseen hnd
      · rw [if_neg hs]
        have hlen1 : (acc ++ [r]).length = acc.length + 1 := by
          simp
        have hnd1 : ((acc ++ [r]).map (fun r => r.url)).Nodup := by
          rw [List.map_append]
          apply List.Nodup.append hnd (by simp)
          intro x hx hy
          simp only [List.map_cons, List.map_nil, List.mem_singleton] at hy
          rcases List.mem_map.mp hx with ⟨r0, hr0, hr0u⟩
          exact hs (by rw [← hy, ← hr0u]; exact hseen r0 hr0)
        have hseen1 : ∀ r0 ∈ acc ++ [r], r0.url ∈ r.url :: seen := by
          intro r0 hr0
          rcases List.mem_append.mp hr0 with h0 | h0
          · exact List.mem_cons_of_mem _ (hseen r0 h0)
          · rw [List.mem_singleton.mp h0]
            exact List.mem_cons_self _ _
        by_cases hcap : maxSubresources ≤ (acc ++ [r]).length
        · rw [if_pos hcap]
          refine ⟨?_, hnd1⟩
          rw [hlen1]
          exact Nat.succ_le_of_lt hlen
        · rw [if_neg hcap]
          exact ih (r.url :: seen) (acc ++ [r]) (Nat.lt_of_not_le hcap)
            hseen1 hnd1

theorem groupByPriority_foldl (rs : List Subresource) :
    ∀ (a b c : List Subresource),
      rs.foldl (fun acc r =>
        match r.typ with
        | .css => (acc.1 ++ [r], acc.2.1, acc.2.2)
        | .font => (acc.1 ++ [r], acc.2.1, acc.2.2)
        | .js => (acc.1, acc.2.1 ++ [r], acc.2.2)
        | .image => (acc.1, acc.2.1, acc.2.2 ++ [r])) (a, b, c) =
      (a ++ rs.filter (fun r => r.typ = .css ∨ r.typ = .font),
       b ++ rs.filter (fun r => r.typ = .js),
       c ++ rs.filter (fun r => r.typ = .image)) := by
  induction rs with
  | nil => simp
  | cons r rest ih =>
    intro a b c
    rw [List.foldl_cons]
    cases hr : r.typ with
    | css =>
      simp only [hr]
      rw [ih]
      simp [List.filter_cons, hr, List.append_assoc]
    | font =>
      simp only [hr]
      rw [ih]
      simp [List.filter_cons, hr, List.append_assoc]
    | js =>
      simp only [hr]
      rw [ih]
      simp [List.filter_cons, hr, List.append_assoc]
    | image =>
      simp only [hr]
      rw [ih]
      simp [List.filter_cons, hr, List.append_assoc]

/-- C6: over any token stream and any URL resolver, `parseSubresources`
returns at most 50 subresources with pairwise-distinct resolved URLs; it
is deterministic (equal inputs give equal outputs, the model being a pure
function of the token stream); and `groupByPriority` assigns exactly the
CSS and font resources to batch 1, the scripts to batch 2, and the images
to batch 3. -/
theorem warmup_parse_spec (resolve : String → String → String)
    (tokens : List HTMLToken) (baseURL : String) :
    (parseSubresources resolve tokens baseURL).length ≤ maxSubresources ∧
    ((parseSubresources resolve tokens baseURL).map
      (fun r => r.url)).Nodup ∧
    (∀ tokens2 baseURL2, tokens2 = tokens → baseURL2 = baseURL →
      parseSubresources resolve tokens2 baseURL2 =
        parseSubresources resolve tokens baseURL) ∧
    groupByPriority (parseSubresources resolve tokens baseURL) =
      ((parseSubresources resolve tokens baseURL).filter
         (fun r => r.typ = .css ∨ r.typ = .font),
       (parseSubresources resolve tokens baseURL).filter
         (fun r => r.typ = .js),
       (parseSubresources resolve tokens baseURL).filter
         (fun r => r.typ = .image)) := by
  obtain ⟨h1, h2⟩ := parseSubresourcesAux_inv resolve baseURL tokens [] []
    (by decide) (by intro r hr; exact absurd hr (List.not_mem_nil r))
    List.nodup_nil
  refine ⟨h1, h2, ?_, ?_⟩
  · intro tokens2 baseURL2 ht hb
    rw [ht, hb]
  · unfold groupByPriority
    rw [groupByPriority_foldl]
    simp

/-- Witness for C6 at a concrete token stream. -/
theorem warmup_parse_spec_witness :
    ((parseSubresources (fun b r => b ++ r)
        [⟨true, "img", [("src", "/a.png")]⟩] "https://e.com").length ≤
      maxSubresources ∧
    ((parseSubresources (fun b r => b ++ r)
        [⟨true, "img", [("src", "/a.png")]⟩] "https://e.com").map
      (fun r => r.url)).Nodup ∧
    (∀ tokens2 baseURL2,
      tokens2 = [(⟨true, "img", [("src", "/a.png")]⟩ : HTMLToken)] →
      baseURL2 = "https://e.com" →
      parseSubresources (fun b r => b ++ r) tokens2 baseURL2 =
        parseSubresources (fun b r => b ++ r)
          [⟨true, "img", [("src", "/a.png")]⟩] "https://e.com") ∧
    groupByPriority (parseSubresources (fun b r => b ++ r)
        [⟨true, "img", [("src", "/a.png")]⟩] "https://e.com") =
      ((parseSubresources (fun b r => b ++ r)
          [⟨true, "img", [("src", "/a.png")]⟩] "https://e.com").filter
         (fun r => r.typ = .css ∨ r.typ = .font),
       (parseSubresources (fun b r => b ++ r)
          [⟨true, "img", [("src", "/a.png")]⟩] "https://e.com").filter
         (fun r => r.typ = .js),
       (parseSubresources (fun b r => b ++ r)
          [⟨true, "img", [("src", "/a.png")]⟩] "https://e.com").filter
         (fun r => r.typ = .image))) :=
  warmup_parse_spec (fun b r => b ++ r)
    [⟨true, "img", [("src", "/a.png")]⟩] "https://e.com"

/-! ### Subresource headers (`buildSubresourceHeaders`) -/

/-- The Sec-Fetch header triple. -/
structure SecFetchHeaders where
  site : String
  mode : String
  dest : String
  deriving DecidableEq, Repr

/-- A fetch request context: mode, destination, page and target URLs. -/
structure RequestContext where
  mode : String
  dest : String
  page : String
  target : String
  deriving DecidableEq, Repr

/-- Modelled from the spec: the fingerprint package's `StyleContext` is
not under src/; per the spec's table a CSS subresource fetches with
Sec-Fetch-Dest `style` and Sec-Fetch-Mode `no-cors` (the in-src test
TestBuildSubresourceHeaders_CSS asserts the same values). -/
def StyleContext (page target : String) : RequestContext :=
  ⟨"no-cors", "style", page, target⟩

/-- Modelled from the spec: `ScriptContext` (not under src/) — dest
`script`, mode `no-cors`. -/
def ScriptContext (page target : String) : RequestContext :=
  ⟨"no-cors", "script", page, target⟩

/-- Modelled from the spec: `ImageContext` (not under src/) — dest
`image`, mode `no-cors`. -/
def ImageContext (page target : String) : RequestContext :=
  ⟨"no-cors", "image", page, target⟩

/-- Modelled from the spec: `FontContext` (not under src/) — dest `font`,
mode `cors` (asserted by the in-src test TestFontContext). -/
def FontContext (page target : String) : RequestContext :=
  ⟨"cors", "font", page, target⟩

/-- Modelled from the spec: `GenerateSecFetchHeaders` (not under src/)
derives Sec-Fetch-Site by comparing the page and target origins —
abstracted as the parameter `siteOf` — and passes through the context's
mode and destination. -/
def GenerateSecFetchHeaders (siteOf : String → String → String)
    (ctx : RequestContext) : SecFetchHeaders :=
  ⟨siteOf ctx.page ctx.target, ctx.mode, ctx.dest⟩

/-- `buildSubresourceHeaders` from the source: the per-type switch for
context, Accept, and Priority, then the header map literal. -/
def buildSubresourceHeaders (siteOf : String → String → String)
    (typ : ResourceType) (pageURL targetURL : String) :
    List (String × List String) :=
  let reqCtx :=
    match typ with
    | .css => StyleContext pageURL targetURL
    | .js => ScriptContext pageURL targetURL
    | .image => ImageContext pageURL targetURL
    | .font => FontContext pageURL targetURL
  let accept :=
    match typ with
    | .css => "text/css,*/*;q=0.1"
    | .js => "*/*"
    | .image => "image/avif,image/webp,image/apng,image/svg+xml,image/*,*/*;q=0.8"
    | .font => "*/*"
  let priority :=
    match typ with
    | .css => "u=0, i"
    | .js => "u=1"
    | .image => "u=2"
    | .font => "u=3"
  let secFetch := GenerateSecFetchHeaders siteOf reqCtx
  [("Accept", [accept]),
   ("Sec-Fetch-Site", [secFetch.site]),
   ("Sec-Fetch-Mode", [secFetch.mode]),
   ("Sec-Fetch-Dest", [secFetch.dest]),
   ("Referer", [pageURL]),
   ("Priority", [priority])]

/-- Header lookup in the returned map. -/
def lookupHeader (hs : List (String × List String)) (k : String) :
    Option (List String) :=
  match hs.find? (fun e => e.1 = k) with
  | some e => some e.2
  | none => none

/-- The spec table's Accept value per type. -/
def specAccept : ResourceType → String
  | .css => "text/css,*/*;q=0.1"
  | .js => "*/*"
  | .image => "image/avif,image/webp,image/apng,image/svg+xml,image/*,*/*;q=0.8"
  | .font => "*/*"

/-- The spec table's Sec-Fetch-Dest value per type. -/
def specDest : ResourceType → String
  | .css => "style"
  | .js => "script"
  | .image => "image"
  | .font => "font"

/-- The spec table's Sec-Fetch-Mode value per type. -/
def specMode : ResourceType → String
  | .css => "no-cors"
  | .js => "no-cors"
  | .image => "no-cors"
  | .font => "cors"

/-- The spec table's Priority value per type. -/
def specPriority : ResourceType → String
  | .css => "u=0, i"
  | .js => "u=1"
  | .image => "u=2"
  | .font => "u=3"

/-- C7: for every resource type, page URL, target URL, and site
classifier, `buildSubresourceHeaders` produces exactly the spec table's
Accept, Sec-Fetch-Dest, Sec-Fetch-Mode, and Priority values, and always
sets Referer to the page URL. -/
theorem warmup_headers_spec (siteOf : String → String → String)
    (typ : ResourceType) (pageURL targetURL : String) :
    lookupHeader (buildSubresourceHeaders siteOf typ pageURL targetURL)
        "Accept" = some [specAccept typ] ∧
    lookupHeader (buildSubresourceHeaders siteOf typ pageURL targetURL)
        "Sec-Fetch-Dest" = some [specDest typ] ∧
    lookupHeader (buildSubresourceHeaders siteOf typ pageURL targetURL)
        "Sec-Fetch-Mode" = some [specMode typ] ∧
    lookupHeader (buildSubresourceHeaders siteOf typ pageURL targetURL)
        "Priority" = some [specPriority typ] ∧
    lookupHeader (buildSubresourceHeaders siteOf typ pageURL targetURL)
        "Referer" = some [pageURL] := by
  cases typ <;>
    exact ⟨rfl, rfl, rfl, rfl, rfl⟩

/-! ### Fast C binding (`bindings/clib/httpcloak_fast.go`) -/

/-- The 2048-byte `final_url` field after the copy loop in
`httpcloak_get_fast` / `httpcloak_get_fast_finish`: a URL strictly
shorter than 2047 bytes is copied and NUL-terminated (bytes beyond the
terminator keep their previous values); otherwise only a NUL is written
at index 0.  Bytes are `Nat`s, `buf` is the field's previous contents. -/
def writeFinalURL (url buf : List Nat) : List Nat :=
  if url.length < 2047 then url ++ 0 :: buf.drop (url.length + 1)
  else 0 :: buf.drop 1

/-- Reading the field as a C string: the bytes before the first NUL. -/
def cStringOf (l : List Nat) : List Nat :=
  l.takeWhile (fun b => b ≠ 0)

theorem takeWhile_append_zero (l rest : List Nat) (h : 0 ∉ l) :
    (l ++ 0 :: rest).takeWhile (fun b => decide (b ≠ 0)) = l := by
  induction l with
  | nil => simp [List.takeWhile_cons]
  | cons a l2 ih =>
    have ha : a ≠ 0 := fun hc => h (by rw [hc]; exact List.mem_cons_self _ _)
    rw [List.cons_append, List.takeWhile_cons,
      if_pos (show (fun b : Nat => decide (b ≠ 0)) a = true by simp [ha]),
      ih (fun hc => h (List.mem_cons_of_mem _ hc))]

/-- C10: the fast binding's `final_url` field is the empty C string when
`FinalURL` is 2047 bytes or longer; a strictly shorter NUL-free URL is
copied intact and NUL-terminated; and the field stays exactly 2048 bytes. -/
theorem fast_final_url_spec (url buf : List Nat) (hbuf : buf.length = 2048) :
    (2047 ≤ url.length → cStringOf (writeFinalURL url buf) = []) ∧
    (url.length < 2047 → 0 ∉ url →
      cStringOf (writeFinalURL url buf) = url) ∧
    (writeFinalURL url buf).length = 2048 := by
  refine ⟨?_, ?_, ?_⟩
  · intro h
    unfold writeFinalURL
    rw [if_neg (Nat.not_lt.mpr h)]
    rfl
  · intro h hnot
    unfold writeFinalURL cStringOf
    rw [if_pos h]
    exact takeWhile_append_zero url _ hnot
  · unfold writeFinalURL
    by_cases h : url.length < 2047
    · rw [if_pos h]
      simp only [List.length_append, List.length_cons, List.length_drop,
        hbuf]
      omega
    · rw [if_neg h]
      simp only [List.length_cons, List.length_drop, hbuf]

/-- Witness for C10 at a concrete URL and buffer. -/
theorem fast_final_url_spec_witness :
    (List.replicate 2048 7).length = 2048 ∧
    ((2047 ≤ ([104, 105] : List Nat).length →
      cStringOf (writeFinalURL [104, 105] (List.replicate 2048 7)) = []) ∧
    (([104, 105] : List Nat).length < 2047 → 0 ∉ ([104, 105] : List Nat) →
      cStringOf (writeFinalURL [104, 105] (List.replicate 2048 7)) =
        [104, 105]) ∧
    (writeFinalURL [104, 105] (List.replicate 2048 7)).length = 2048) :=
  ⟨by rw [List.length_replicate],
   fast_final_url_spec [104, 105] (List.replicate 2048 7)
     (by rw [List.length_replicate])⟩

end Httpcloak
